import Mathlib

/-!
Verification of the on-call triage bot (`app/` Python sources) against its
natural-language specification.  Python strings are modelled as `List Char`
(name `Str`); Python dictionaries that are used as insertion-ordered maps are
modelled as association lists; subprocess/HTTP collaborators (ripgrep search,
Sourcegraph, the Codex CLI, the Zulip transport) are modelled as function
parameters, mirroring the spec's collaborator contracts.
-/

set_option maxRecDepth 10000

namespace TriageBot

/-- Python strings are modelled as lists of characters. -/
abbrev Str := List Char

/-- Whitespace class used by `str.strip()` and by the regex class `\s`
(ASCII part: space, tab, newline, carriage return, vertical tab, form feed). -/
def pySpace (c : Char) : Bool :=
  c = ' ' || c = '\t' || c = '\n' || c = '\r' || c = Char.ofNat 11 || c = Char.ofNat 12

/-- ASCII lowercasing of one character, as `str.lower()` acts on ASCII input. -/
def pyToLower (c : Char) : Char :=
  if 'A' ≤ c ∧ c ≤ 'Z' then Char.ofNat (c.toNat + 32) else c

/-- Model of Python `str.lower()`. -/
def pyLower (s : Str) : Str := s.map pyToLower

/-- Model of Python `str.strip()`: drop whitespace from both ends. -/
def pyStrip (s : Str) : Str :=
  ((s.dropWhile pySpace).reverse.dropWhile pySpace).reverse

/-- Model of Python `sep.join(parts)`. -/
def pyJoin (sep : Str) : List Str → Str
  | [] => []
  | [x] => x
  | x :: y :: rest => x ++ sep ++ pyJoin sep (y :: rest)

/-- Model of the Python slice `l[-n:]`: the last `n` elements. -/
def lastN (n : Nat) (l : List α) : List α := l.drop (l.length - n)

/-- Truthiness-based `a or b` on an optional string (Python treats `None`
and the empty string as falsy). -/
def pyOrStr (a : Option Str) (b : Str) : Str :=
  match a with
  | none => b
  | some s => if s = [] then b else s

/-- Characters matched by the broad orchestration token class `[a-z0-9_-]`
(the text is lowercased before matching). -/
def broadTokChar (c : Char) : Bool :=
  ('a' ≤ c && c ≤ 'z') || ('0' ≤ c && c ≤ '9') || c = '_' || c = '-'

/-- Characters matched by the narrow fallback-analyzer token class `[a-zA-Z]`
(the text is lowercased before matching, so only `a-z` can occur). -/
def narrowTokChar (c : Char) : Bool :=
  ('a' ≤ c && c ≤ 'z') || ('A' ≤ c && c ≤ 'Z')

/-- Close one maximal run: keep it only when it reaches the minimum length. -/
def closeRun (minLen : Nat) (acc : Str) : List Str :=
  if minLen ≤ acc.length ∧ acc ≠ [] then [acc] else []

/-- Accumulate maximal runs of characters satisfying `tk`; `re.findall` of a
single character class with a `{n,}` repetition returns exactly the maximal
runs of at least `n` class characters. -/
def runsAux (tk : Char → Bool) (minLen : Nat) : Str → Str → List Str
  | [], acc => closeRun minLen acc
  | c :: rest, acc =>
    if tk c then runsAux tk minLen rest (acc ++ [c])
    else closeRun minLen acc ++ runsAux tk minLen rest []

/-- Tokenizer shared by both keyword extractors: maximal runs of class
characters of length at least `minLen`. -/
def tokenize (tk : Char → Bool) (minLen : Nat) (s : Str) : List Str :=
  runsAux tk minLen s []

/-- Stop-word set of the orchestration-time extractor (`app/triage.py`). -/
def STOP_WORDS_TRIAGE : List Str :=
  [("probabl".toList), ("triage".toList), ("issue".toList), ("issues".toList),
   ("please".toList), ("thanks".toList), ("thank".toList), ("hello".toList),
   ("hey".toList), ("team".toList), ("update".toList), ("updated".toList),
   ("cc".toList), ("clarisights".toList)]

/-- Stop-word set of the fallback analyzer (`app/analyzer.py`). -/
def STOP_WORDS_ANALYZER : List Str :=
  [("the".toList), ("this".toList), ("that".toList), ("have".toList),
   ("error".toList), ("issue".toList), ("with".toList), ("when".toList),
   ("from".toList), ("user".toList), ("users".toList), ("request".toList),
   ("requests".toList), ("failed".toList), ("failing".toList),
   ("frontend".toList), ("backend".toList), ("prod".toList),
   ("production".toList)]

/-- Model of Python `str.isdigit()` on a token (tokens are nonempty). -/
def pyIsDigit (s : Str) : Bool :=
  s ≠ [] && s.all (fun c => '0' ≤ c && c ≤ '9')

/-- Bump the count of `t` in an insertion-ordered counter, appending a fresh
entry at the end when `t` is new — exactly how a Python `Counter` (a dict)
grows. -/
def bump : List (Str × Nat) → Str → List (Str × Nat)
  | [], t => [(t, 1)]
  | (k, n) :: rest, t =>
    if k = t then (k, n + 1) :: rest else (k, n) :: bump rest t

/-- Build the counter for a token stream, keys in first-appearance order. -/
def countFold (toks : List Str) : List (Str × Nat) :=
  toks.foldl bump []

/-- Insert an entry after every entry with a count at least as large — the
insertion step of a stable descending sort (ties keep earlier entries first),
matching the stability of `Counter.most_common`. -/
def insDesc (x : Str × Nat) : List (Str × Nat) → List (Str × Nat)
  | [] => [x]
  | y :: ys => if x.2 ≤ y.2 then y :: insDesc x ys else x :: y :: ys

/-- Stable sort by descending count. -/
def sortDesc (l : List (Str × Nat)) : List (Str × Nat) :=
  l.foldl (fun acc x => insDesc x acc) []

/-- Model of `Counter.most_common(n)`: entries by descending count, ties in
insertion order, truncated to `n`. -/
def mostCommon (n : Nat) (counts : List (Str × Nat)) : List (Str × Nat) :=
  (sortDesc counts).take n

/-- Default of the `TRIAGE_KEYWORD_LIMIT` environment override. -/
def KEYWORD_LIMIT : Nat := 12

/-- Tokens of the broad orchestration tokenizer that survive the stop-word
and pure-digit filters (`app/triage.py`, `_extract_keywords` loop). -/
def broadSurvivors (text : Str) : List Str :=
  (tokenize broadTokChar 2 (pyLower text)).filter
    (fun t => ¬ t ∈ STOP_WORDS_TRIAGE ∧ ¬ pyIsDigit t)

/-- Model of `app/triage.py` `_extract_keywords`: count surviving broad
tokens, return the `most_common(KEYWORD_LIMIT)` tokens. -/
def triageExtractKeywords (text : Str) : List Str :=
  (mostCommon KEYWORD_LIMIT (countFold (broadSurvivors text))).map Prod.fst

/-- Tokens of the narrow fallback tokenizer that survive its stop-word
filter (`app/analyzer.py`). -/
def narrowSurvivors (text : Str) : List Str :=
  (tokenize narrowTokChar 4 (pyLower text)).filter
    (fun t => ¬ t ∈ STOP_WORDS_ANALYZER)

/-- Loop body of `app/analyzer.py` `_extract_keywords`: walk the tokens,
skip stop-words and already-collected tokens, append, and stop as soon as
`limit` keywords are collected. -/
def analyzerExtractGo (limit : Nat) : List Str → List Str → List Str
  | [], acc => acc
  | t :: ts, acc =>
    if t ∈ STOP_WORDS_ANALYZER then analyzerExtractGo limit ts acc
    else if t ∈ acc then analyzerExtractGo limit ts acc
    else
      let acc' := acc ++ [t]
      if limit ≤ acc'.length then acc' else analyzerExtractGo limit ts acc'

/-- Model of `app/analyzer.py` `_extract_keywords` at its default limit 4,
which is the limit the analyzer always uses. -/
def analyzerExtractKeywords (text : Str) : List Str :=
  analyzerExtractGo 4 (tokenize narrowTokChar 4 (pyLower text)) []

/-- Step of first-appearance deduplication: append the element unless it was
already collected. -/
def dStep (acc : List Str) (t : Str) : List Str :=
  if t ∈ acc then acc else acc ++ [t]

/-- Distinct elements of a list in order of first appearance. -/
def distinctFirst (l : List Str) : List Str :=
  l.foldl dStep []

/-- Spec-side counter ("stable count"): each distinct token in order of first
appearance, paired with its number of occurrences.  This definition follows
the specification's words and is compared with the source-side `countFold`. -/
def specCounts (toks : List Str) : List (Str × Nat) :=
  (distinctFirst toks).map (fun t => (t, toks.count t))

/-- Spec-side ranking, following the specification's words: rank the
surviving tokens by descending frequency, ties broken by first-appearance
order, and return the top `k`. -/
def specRank (k : Nat) (toks : List Str) : List Str :=
  ((sortDesc (specCounts toks)).take k).map Prod.fst

theorem mem_foldl_dStep (l : List Str) :
    ∀ acc x, x ∈ l.foldl dStep acc ↔ x ∈ acc ∨ x ∈ l := by
  induction l with
  | nil => simp
  | cons t ts ih =>
    intro acc x
    rw [List.foldl_cons, ih]
    by_cases h : t ∈ acc
    · simp only [dStep, if_pos h, List.mem_cons]
      constructor
      · rintro (hx | hx)
        · exact Or.inl hx
        · exact Or.inr (Or.inr hx)
      · rintro (hx | hx | hx)
        · exact Or.inl hx
        · exact Or.inl (hx ▸ h)
        · exact Or.inr hx
    · simp only [dStep, if_neg h, List.mem_append, List.mem_singleton, List.mem_cons]
      tauto

theorem nodup_foldl_dStep (l : List Str) :
    ∀ acc, acc.Nodup → (l.foldl dStep acc).Nodup := by
  induction l with
  | nil => intro acc h; simpa using h
  | cons t ts ih =>
    intro acc h
    rw [List.foldl_cons]
    refine ih _ ?_
    by_cases hm : t ∈ acc
    · simpa [dStep, hm] using h
    · simp [dStep, hm, List.nodup_append, h]

theorem distinctFirst_nodup (l : List Str) : (distinctFirst l).Nodup :=
  nodup_foldl_dStep l [] List.nodup_nil

theorem mem_distinctFirst (l : List Str) (x : Str) :
    x ∈ distinctFirst l ↔ x ∈ l := by
  simpa using mem_foldl_dStep l [] x

theorem bump_of_not_mem (g : Str → Nat) (l : List Str) (t : Str) (h : ¬ t ∈ l) :
    bump (l.map fun s => (s, g s)) t = l.map (fun s => (s, g s)) ++ [(t, 1)] := by
  induction l with
  | nil => rfl
  | cons a as ih =>
    have ha : a ≠ t := fun he => h (he ▸ List.mem_cons_self a as)
    have has : ¬ t ∈ as := fun hm => h (List.mem_cons_of_mem a hm)
    simp [bump, ha, ih has]

theorem bump_of_mem (g : Str → Nat) (l : List Str) (t : Str)
    (hn : l.Nodup) (h : t ∈ l) :
    bump (l.map fun s => (s, g s)) t =
      l.map (fun s => (s, g s + if s = t then 1 else 0)) := by
  induction l with
  | nil => cases h
  | cons a as ih =>
    by_cases ha : a = t
    · subst ha
      have has : ¬ a ∈ as := (List.nodup_cons.mp hn).1
      have hmap : as.map (fun s => (s, g s)) =
          as.map (fun s => (s, g s + if s = a then 1 else 0)) := by
        refine List.map_congr_left ?_
        intro s hs
        have hne : s ≠ a := fun he => has (he ▸ hs)
        simp [hne]
      simp [bump, hmap]
    · have has : t ∈ as := by
        rcases List.mem_cons.mp h with h1 | h1
        · exact absurd h1.symm ha
        · exact h1
      simp [bump, ha, ih (List.nodup_cons.mp hn).2 has]

theorem distinctFirst_append_singleton (pre : List Str) (t : Str) :
    distinctFirst (pre ++ [t]) = dStep (distinctFirst pre) t := by
  simp [distinctFirst, List.foldl_append]

theorem bump_specCounts (pre : List Str) (t : Str) :
    bump (specCounts pre) t = specCounts (pre ++ [t]) := by
  by_cases h : t ∈ pre
  · have hd : t ∈ distinctFirst pre := (mem_distinctFirst pre t).mpr h
    rw [specCounts, specCounts, distinctFirst_append_singleton, dStep, if_pos hd,
      bump_of_mem _ _ _ (distinctFirst_nodup pre) hd]
    refine List.map_congr_left ?_
    intro s _
    by_cases hst : s = t
    · subst hst; simp [List.count_append]
    · have : ¬ t = s := fun he => hst he.symm
      simp [List.count_append, hst, this]
  · have hd : ¬ t ∈ distinctFirst pre := fun hm => h ((mem_distinctFirst pre t).mp hm)
    rw [specCounts, specCounts, distinctFirst_append_singleton, dStep, if_neg hd,
      bump_of_not_mem _ _ _ hd, List.map_append]
    congr 1
    · refine List.map_congr_left ?_
      intro s hs
      have hsp : s ∈ pre := (mem_distinctFirst pre s).mp hs
      have hst : s ≠ t := fun he => h (he ▸ hsp)
      have h0 : List.count s [t] = 0 := by
        simp [List.count_eq_zero, hst]
      simp [List.count_append, h0]
    · have : pre.count t = 0 := List.count_eq_zero.mpr h
      simp [List.count_append, this]

theorem countFold_eq_specCounts (toks : List Str) :
    countFold toks = specCounts toks := by
  suffices h : ∀ ts pre, List.foldl bump (specCounts pre) ts = specCounts (pre ++ ts) by
    simpa [countFold, specCounts, distinctFirst] using h toks []
  intro ts
  induction ts with
  | nil => simp
  | cons t ts ih =>
    intro pre
    rw [List.foldl_cons, bump_specCounts, ih]
    simp

theorem foldl_dStep_isPrefixOf (l : List Str) :
    ∀ acc, acc <+: l.foldl dStep acc := by
  induction l with
  | nil => intro acc; exact List.prefix_refl acc
  | cons t ts ih =>
    intro acc
    refine List.IsPrefix.trans ?_ (ih (dStep acc t))
    by_cases h : t ∈ acc
    · simp only [dStep, if_pos h]
      exact List.prefix_refl acc
    · exact ⟨[t], by simp [dStep, h]⟩

theorem analyzerGo_eq (ts : List Str) :
    ∀ acc, acc.length < 4 →
      analyzerExtractGo 4 ts acc =
        ((ts.filter (fun t => ¬ t ∈ STOP_WORDS_ANALYZER)).foldl dStep acc).take 4 := by
  induction ts with
  | nil =>
    intro acc h
    simp [analyzerExtractGo, List.take_of_length_le (Nat.le_of_lt h)]
  | cons t ts ih =>
    intro acc h
    by_cases hs : t ∈ STOP_WORDS_ANALYZER
    · simp [analyzerExtractGo, hs, ih acc h, List.filter_cons]
    · by_cases hm : t ∈ acc
      · have : dStep acc t = acc := by simp [dStep, hm]
        simp [analyzerExtractGo, hs, hm, ih acc h, List.filter_cons, this]
      · by_cases hl : 4 ≤ (acc ++ [t]).length
        · have hlen : (acc ++ [t]).length = 4 := by
            have : (acc ++ [t]).length = acc.length + 1 := by simp
            omega
          obtain ⟨rest, hrest⟩ :=
            foldl_dStep_isPrefixOf (ts.filter (fun t => ¬ t ∈ STOP_WORDS_ANALYZER)) (acc ++ [t])
          have hds : dStep acc t = acc ++ [t] := by simp [dStep, hm]
          simp only [analyzerExtractGo, if_neg hs, if_neg hm, if_pos hl]
          rw [List.filter_cons_of_pos (by simp [hs]), List.foldl_cons, hds, ← hrest,
            ← hlen]
          exact (List.take_left (acc ++ [t]) rest).symm
        · have hlt : (acc ++ [t]).length < 4 := Nat.lt_of_not_le hl
          have hds : dStep acc t = acc ++ [t] := by simp [dStep, hm]
          simp only [analyzerExtractGo, if_neg hs, if_neg hm, if_neg hl]
          rw [ih (acc ++ [t]) hlt, List.filter_cons_of_pos (by simp [hs]),
            List.foldl_cons, hds]

theorem analyzerExtract_eq_take_distinct (text : Str) :
    analyzerExtractKeywords text = (distinctFirst (narrowSurvivors text)).take 4 := by
  rw [analyzerExtractKeywords, analyzerGo_eq _ [] (by simp)]
  rfl

theorem triageExtract_eq_specRank (text : Str) :
    triageExtractKeywords text = specRank 12 (broadSurvivors text) := by
  simp [triageExtractKeywords, specRank, mostCommon, KEYWORD_LIMIT,
    countFold_eq_specCounts]

/-! Data model (`app/models.py`, `app/repo.py`, `app/tools.py`). -/

/-- Model of `app/models.py` `TriageRequest`. -/
structure TriageRequest where
  sender_email : Str
  stream : Option Str
  topic : Option Str
  incident_text : Str
  thread_context : List Str
deriving DecidableEq

/-- Model of `TriageRequest.combined_text`: the stripped incident text, then
(when thread context exists) a labelled header and the context lines, with
empty lines dropped before joining on newline. -/
def combinedText (r : TriageRequest) : Str :=
  let lines :=
    [pyStrip r.incident_text] ++
      (if r.thread_context ≠ [] then
        (("Thread context (latest ".toList ++ (Nat.repr r.thread_context.length).toList
            ++ " messages):".toList) :: r.thread_context)
      else [])
  pyJoin ("\n".toList) (lines.filter (fun l => l ≠ []))

/-- Model of `app/repo.py` `RepoMatch`. -/
structure RepoMatch where
  path : Str
  line : Nat
  preview : Str
deriving DecidableEq

/-- Model of `app/repo.py` `RepoCommit`. -/
structure RepoCommit where
  sha : Str
  author : Str
  date : Str
  message : Str
deriving DecidableEq

/-- Model of `app/repo.py` `LocalRepo`: search and commit lookup run
external processes (ripgrep, git), so they are modelled as the repository
object's own query functions, per the spec's collaborator contract. -/
structure RepoModel where
  name : Str
  search : Str → Nat → List RepoMatch
  recentCommits : Nat → List RepoCommit

/-- Model of `app/tools.py` `ToolResult`. -/
structure ToolResult where
  description : Str
  content : Str
deriving DecidableEq

/-! Deterministic fallback analyzer (`app/analyzer.py` `BasicAnalyzer`). -/

/-- Per-repository finding of the fallback analyzer. -/
structure RepoFinding where
  repo : Str
  found : List RepoMatch
  note : Str

/-- Match-collection loop of `BasicAnalyzer.analyze`: for each keyword search
the repository with limit 1, stopping once 3 matches are collected. -/
def collectMatches (repo : RepoModel) : List Str → List RepoMatch → List RepoMatch
  | [], acc => acc
  | k :: ks, acc =>
    let acc' := acc ++ repo.search k 1
    if 3 ≤ acc'.length then acc' else collectMatches repo ks acc'

/-- Literal sentence returned by the analyzer when no repositories loaded. -/
def NO_REPOS_MSG : Str :=
  ("I could not locate the local repos; please ensure they exist next to this project.".toList)

/-- Fallback note attached to a repository that yielded no matches. -/
def repoNote (repo : RepoModel) (found : List RepoMatch) : Str :=
  if found = [] then
    match repo.recentCommits 1 with
    | last :: _ =>
      ("latest commit ".toList) ++ last.sha ++ (" by ".toList) ++ last.author
        ++ (" on ".toList) ++ last.date ++ (": ".toList) ++ last.message
    | [] => ("no matches and unable to read recent commits".toList)
  else []

/-- Report bullet for one match; the separator reproduces the literal bytes
of the source file. -/
def matchLine (m : RepoMatch) : Str :=
  ("  - ".toList) ++ m.path ++ (":".toList) ++ (Nat.repr m.line).toList
    ++ (" â€” ".toList) ++ m.preview.take 160

/-- Report lines for one repository finding. -/
def findingLines (f : RepoFinding) : List Str :=
  [("* Repo `".toList) ++ f.repo ++ ("`".toList)]
    ++ (if f.found ≠ [] then f.found.map matchLine else [])
    ++ (if f.note ≠ [] then [("  - ".toList) ++ f.note] else [])

/-- Model of `BasicAnalyzer.analyze`: extract up to 4 narrow keywords, return
the literal sentence when no repositories are configured, otherwise compose
the fixed-structure report. -/
def analyze (repos : List RepoModel) (incident_text : Str) : Str :=
  let keywords := analyzerExtractKeywords incident_text
  if repos.isEmpty then NO_REPOS_MSG
  else
    let findings := repos.map (fun repo =>
      RepoFinding.mk repo.name (collectMatches repo keywords []) (repoNote repo (collectMatches repo keywords [])))
    let headerLines :=
      [("Automated triage check".toList),
       if keywords ≠ [] then ("Keywords noticed: ".toList) ++ pyJoin (", ".toList) keywords
       else ("Keywords: (none detected)".toList)]
    let lines := headerLines ++ (findings.map findingLines).flatten
      ++ [[], ("_reply with `next steps` for additional guidance_".toList)]
    pyJoin ("\n".toList) lines

/-! Tiered decision ladder (`app/triage.py` `TriageService.run`). -/

/-- Model of `app/llm.py` `LLMAgent` at the granularity the ladder observes:
the capability flag computed at startup and the per-request invocation, which
returns `none` on any failure (`run` returns `content or None`). -/
structure LLMModel where
  enabled : Bool
  invoke : TriageRequest → List ToolResult → Option Str

/-- Model of `TriageService.run`: gather tool evidence, try the LLM tier when
enabled, and return its answer when truthy (non-`None` and non-empty);
otherwise fall back to the keyword analyzer on `request.combined_text()`. -/
def triageRun (gather : TriageRequest → List ToolResult) (llm : LLMModel)
    (repos : List RepoModel) (request : TriageRequest) : Str :=
  let tool_results := gather request
  let viaLLM : Option Str :=
    if llm.enabled then
      match llm.invoke request tool_results with
      | some s => if s ≠ [] then some s else none
      | none => none
    else none
  match viaLLM with
  | some s => s
  | none => analyze repos (combinedText request)

/-! Search tooling and its cache (`app/tools.py`, `app/repo.py` `RepoCache`,
`app/sourcegraph_client.py`). -/

/-- Model of `app/sourcegraph_client.py` `SourcegraphMatch`. -/
structure SourcegraphMatch where
  repo : Str
  path : Str
  line : Nat
  preview : Str

/-- Model of the Sourcegraph client as `search_code` observes it: the
`enabled` flag and the `search` call (an HTTP collaborator). -/
structure SGClient where
  enabled : Bool
  search : Str → Str → Option (List Str) → Nat → List SourcegraphMatch

/-- Model of `app/tools.py` `ToolRegistry`: repository names, the local
ripgrep-backed search (a subprocess collaborator) and the optional
Sourcegraph client. -/
structure ToolRegistryModel where
  repoNames : List Str
  localSearch : Str → Str → Nat → List RepoMatch
  sg : Option SGClient

/-- Model of `app/repo.py` `RepoCache._search_cache`: an insertion-ordered
dictionary keyed by (repo name, keyword). -/
abbrev SearchCache := List ((Str × Str) × List RepoMatch)

/-- Dictionary lookup (`RepoCache.get_search`). -/
def cacheGet : SearchCache → Str → Str → Option (List RepoMatch)
  | [], _, _ => none
  | e :: rest, repo, keyword =>
    if e.1 = (repo, keyword) then some e.2 else cacheGet rest repo keyword

/-- Dictionary assignment (`RepoCache.cache_search`). -/
def cachePut (c : SearchCache) (repo keyword : Str) (ms : List RepoMatch) :
    SearchCache :=
  match c with
  | [] => [((repo, keyword), ms)]
  | e :: rest =>
    if e.1 = (repo, keyword) then ((repo, keyword), ms) :: rest
    else e :: cachePut rest repo keyword ms

/-- Model of `ToolRegistry.search_code`.  The returned `Nat` counts the
invocations of the two search backends (Sourcegraph, then the local ripgrep
search) performed by this call, so that the memoization claim can speak about
the backends not being re-invoked. -/
def searchCode (reg : ToolRegistryModel) (cache : SearchCache)
    (repo_name query : Str) (limit : Nat) (directories : Option (List Str)) :
    List RepoMatch × SearchCache × Nat :=
  if ¬ repo_name ∈ reg.repoNames then ([], cache, 0)
  else
    match cacheGet cache repo_name query with
    | some cached => (cached.take limit, cache, 0)
    | none =>
      let sgStep : List RepoMatch × Nat :=
        match reg.sg with
        | some client =>
          if client.enabled then
            ((client.search repo_name query directories limit).map
              (fun m => RepoMatch.mk m.path m.line m.preview), 1)
          else ([], 0)
        | none => ([], 0)
      let final : List RepoMatch × Nat :=
        if sgStep.1 = [] then (reg.localSearch repo_name query limit, sgStep.2 + 1)
        else sgStep
      (final.1, cachePut cache repo_name query final.1, final.2)

/-! Incident state (`app/state.py`). -/

/-- Model of `app/state.py` `IncidentRecord`. -/
structure IncidentRecord where
  stream : Option Str
  topic : Option Str
  last_summary : Option Str
  last_request : Option TriageRequest
  history : List Str
deriving DecidableEq

/-- Model of `IncidentRecord.update`. -/
def recordUpdate (rec : IncidentRecord) (summary : Str) (req : TriageRequest) :
    IncidentRecord :=
  { rec with
      last_summary := some summary
      last_request := some req
      history := rec.history ++ [summary] }

/-- Model of `IncidentStore._key`: Python truthiness-based fallbacks
`stream or 'dm'` and `topic or 'general'` joined by a double colon. -/
def incidentKey (stream topic : Option Str) : Str :=
  pyOrStr stream ("dm".toList) ++ ("::".toList) ++ pyOrStr topic ("general".toList)

/-- Contents of the incident store: an insertion-ordered dictionary from key
to record.  Record identity is represented by the key the record is stored
under, which is how the process-lifetime dictionary keeps one mutable record
per key. -/
abbrev IncidentStoreState := List (Str × IncidentRecord)

/-- Dictionary lookup in the store. -/
def storeLookup : IncidentStoreState → Str → Option IncidentRecord
  | [], _ => none
  | e :: rest, k => if e.1 = k then some e.2 else storeLookup rest k

/-- Model of `IncidentStore.get_or_create`: insert a fresh record when the
key is absent, then return the record stored under the key. -/
def getOrCreate (st : IncidentStoreState) (r : TriageRequest) :
    IncidentRecord × IncidentStoreState :=
  let k := incidentKey r.stream r.topic
  match storeLookup st k with
  | some rec => (rec, st)
  | none =>
    let fresh : IncidentRecord := ⟨r.stream, r.topic, none, none, []⟩
    (fresh, st ++ [(k, fresh)])

/-- Model of `IncidentStore.find`. -/
def storeFind (st : IncidentStoreState) (stream topic : Option Str) :
    Option IncidentRecord :=
  storeLookup st (incidentKey stream topic)

/-! Thread-context resolution (`app/main.py` `handle_incoming_message`,
`app/zulip_client.py` `fetch_thread_messages`).  Flattening raw Zulip markup
to plain text (`_plain_text`: HTML-entity unescaping, tag stripping and
whitespace collapsing) is passed in as the `plain` parameter. -/

/-- Model of one fetched Zulip message as the context loop reads it. -/
structure ZulipMessage where
  sender_full_name : Option Str
  sender_email : Option Str
  content : Str
deriving DecidableEq

/-- Truthiness-based `a or b` on two optional strings. -/
def pyOrOpt (a b : Option Str) : Option Str :=
  match a with
  | none => b
  | some s => if s = [] then b else some s

/-- Rendering of a possibly-missing value inside an f-string. -/
def renderOpt (a : Option Str) : Str :=
  match a with
  | some s => s
  | none => ("None".toList)

/-- Author label of a context line:
`msg.get("sender_full_name") or msg.get("sender_email")`. -/
def threadAuthor (m : ZulipMessage) : Str :=
  renderOpt (pyOrOpt m.sender_full_name m.sender_email)

/-- Loop body of the context loop: skip a message whose flattened text is
empty, otherwise append its formatted line. -/
def threadStep (plain : Str → Str) (acc : List Str) (m : ZulipMessage) : List Str :=
  let text := plain m.content
  if text = [] then acc
  else acc ++ [threadAuthor m ++ (": ".toList) ++ text]

/-- Model of the context loop in `handle_incoming_message`: walk the last 10
fetched messages and collect a formatted line for each one whose flattened
text is non-empty. -/
def buildThreadLines (plain : Str → Str) (msgs : List ZulipMessage) : List Str :=
  (lastN 10 msgs).foldl (threadStep plain) []

/-- Formatted line of one message, when its flattened text is non-empty. -/
def threadLineOf (plain : Str → Str) (m : ZulipMessage) : Option Str :=
  let text := plain m.content
  if text = [] then none
  else some (threadAuthor m ++ (": ".toList) ++ text)

/-- Spec-side context selection, following the claim's words: the last 10
non-empty flattened messages of the whole thread. -/
def specThreadLines (plain : Str → Str) (msgs : List ZulipMessage) : List Str :=
  lastN 10 (msgs.filterMap (threadLineOf plain))

/-- Raw result of the `get_messages` transport call. -/
structure GetMessagesResult where
  result : Str
  messages : List ZulipMessage

/-- Model of `ZulipBotClient.fetch_thread_messages`: an unsuccessful (or
error) transport result yields the empty message list, never an error. -/
def fetchThreadMessages (resp : GetMessagesResult) : List ZulipMessage :=
  if resp.result ≠ ("success".toList) then [] else resp.messages

/-! Per-message triage handler (`app/main.py` `_run_triage_and_reply`). -/

/-- Triage pipeline with fallible collaborators: `Except.error e` models an
exception with text `e` raised by the corresponding stage of
gather / LLM / fallback inside `TriageService.run`. -/
def triageRunExc (gatherE : TriageRequest → Except Str (List ToolResult))
    (llmEnabled : Bool)
    (llmE : TriageRequest → List ToolResult → Except Str (Option Str))
    (analyzeE : Str → Except Str Str) (request : TriageRequest) :
    Except Str Str := do
  let tool_results ← gatherE request
  let viaLLM ←
    if llmEnabled then do
      match ← llmE request tool_results with
      | some s => pure (if s ≠ [] then some s else none)
      | none => pure (none : Option Str)
    else pure (none : Option Str)
  match viaLLM with
  | some s => pure s
  | none => analyzeE (combinedText request)

/-- Summary the handler ends up with: the pipeline's answer, or the generic
failure message embedding the exception text (the `except` branch). -/
def summaryOfOutcome (outcome : Except Str Str) : Str :=
  match outcome with
  | .ok s => s
  | .error e => ("Unable to run automated analysis: ".toList) ++ e

/-- Observable result of the handler: the updated incident record and the
replies it sent. -/
structure HandlerResult where
  record : IncidentRecord
  sent : List Str
deriving DecidableEq

/-- Model of `_run_triage_and_reply`: catch any pipeline exception, fall back
to the generic failure summary, update the incident record and send exactly
one reply.  The function is total: no exception propagates out of it. -/
def runTriageAndReply (outcome : Except Str Str) (incident : IncidentRecord)
    (request : TriageRequest) : HandlerResult :=
  let summary := summaryOfOutcome outcome
  ⟨recordUpdate incident summary request, [summary]⟩

/-! Command extraction (`app/main.py` `_extract_command`). -/

/-- Word characters of the regex boundary `\b` (`[a-zA-Z0-9_]`). -/
def wordChar (c : Char) : Bool :=
  ('a' ≤ c && c ≤ 'z') || ('A' ≤ c && c ≤ 'Z') || ('0' ≤ c && c ≤ '9') || c = '_'

/-- Test whether the pattern of `re.search(r"(^|\s)/product\b", lowered)`
matches with the slash at position `i` of `l`: the literal `/product` there,
preceded by start-of-text or whitespace, followed by end or a non-word
character. -/
def productTokenAt (l : Str) (i : Nat) : Bool :=
  (("/product".toList).isPrefixOf (l.drop i))
    && (i = 0 || (match (l.drop (i - 1)).head? with
        | some c => pySpace c
        | none => false))
    && (match (l.drop (i + 8)).head? with
        | some c => ¬ wordChar c
        | none => true)

/-- Least index below `n` satisfying `p`. -/
def leastBelow (p : Nat → Bool) : Nat → Option Nat
  | 0 => none
  | n + 1 =>
    match leastBelow p n with
    | some i => some i
    | none => if p n then some n else none

/-- Position of the slash of the first `(^|\s)/product\b` match, which is
also the index `lowered.find("/product", match.start())` computes. -/
def findProductIdx (l : Str) : Option Nat :=
  leastBelow (fun i => productTokenAt l i) l.length

/-- The static alias table `COMMAND_ALIASES` of `app/main.py`, in its
iteration order. -/
def COMMAND_ALIASES : List (Str × List Str) :=
  [(("status".toList),
    [("status".toList), ("triage status".toList), ("status?".toList),
     ("show status".toList)]),
   (("rerun".toList),
    [("rerun".toList), ("rerun analysis".toList), ("rerun triage".toList),
     ("next steps".toList), ("next-steps".toList)]),
   (("product".toList),
    [("/product".toList), ("product".toList)])]

/-- Inner alias loop: exact match yields an empty remainder, an
alias-plus-space match yields the trailing original-case text, trimmed. -/
def aliasScanOne (text lowered command : Str) :
    List Str → Option (Option Str × Str)
  | [] => none
  | al :: rest =>
    if lowered = al then some (some command, [])
    else if (al ++ [' ']).isPrefixOf lowered then
      some (some command, pyStrip (text.drop al.length))
    else aliasScanOne text lowered command rest

/-- Outer alias loop over the table. -/
def aliasScan (text lowered : Str) :
    List (Str × List Str) → Option Str × Str
  | [] => (none, [])
  | (command, als) :: rest =>
    match aliasScanOne text lowered command als with
    | some r => r
    | none => aliasScan text lowered rest

/-- Core of `_extract_command` after stripping and lowercasing: the
`/product` regex is tried first, then the alias table. -/
def extractCore (text lowered : Str) : Option Str × Str :=
  match findProductIdx lowered with
  | some i => (some ("product".toList), pyStrip (text.drop (i + 8)))
  | none => aliasScan text lowered COMMAND_ALIASES

/-- Model of `app/main.py` `_extract_command`. -/
def extractCommand (plain_content : Str) : Option Str × Str :=
  extractCore (pyStrip plain_content) (pyLower (pyStrip plain_content))

/-! Deep-link topic decoding (`app/main.py` `_decode_url_component`). -/

/-- Hexadecimal digits of the dot-escape pattern and of `unquote`. -/
def isHexDigit (c : Char) : Bool :=
  ('0' ≤ c && c ≤ '9') || ('a' ≤ c && c ≤ 'f') || ('A' ≤ c && c ≤ 'F')

/-- Numeric value of a hexadecimal digit. -/
def hexVal (c : Char) : Nat :=
  if '0' ≤ c && c ≤ '9' then c.toNat - '0'.toNat
  else if 'a' ≤ c && c ≤ 'f' then c.toNat - 'a'.toNat + 10
  else c.toNat - 'A'.toNat + 10

/-- Left-to-right non-overlapping rewrite of
`re.sub` of the pattern dot-then-two-hex-digits to a percent escape. -/
def dotPatch : Str → Str
  | '.' :: h1 :: h2 :: rest =>
    if isHexDigit h1 && isHexDigit h2 then '%' :: h1 :: h2 :: dotPatch rest
    else '.' :: dotPatch (h1 :: h2 :: rest)
  | c :: rest => c :: dotPatch rest
  | [] => []

/-- Tokenization pass of `urllib.parse.unquote`: each percent escape becomes
a byte, everything else stays a character. -/
def pctTokens : Str → List (Sum Char Nat)
  | '%' :: h1 :: h2 :: rest =>
    if isHexDigit h1 && isHexDigit h2 then
      Sum.inr (hexVal h1 * 16 + hexVal h2) :: pctTokens rest
    else Sum.inl '%' :: pctTokens (h1 :: h2 :: rest)
  | c :: rest => Sum.inl c :: pctTokens rest
  | [] => []

/-- Continuation-byte test of UTF-8. -/
def utf8Cont (b : Nat) : Bool := 0x80 ≤ b && b ≤ 0xBF

/-- Replacement character emitted for undecodable bytes. -/
def replacementChar : Char := Char.ofNat 0xFFFD

/-- UTF-8 decoding of a byte run, invalid sequences replaced, as
`unquote`'s `errors="replace"` decodes each run of percent escapes. -/
def utf8DecodeF : Nat → List Nat → Str
  | 0, _ => []
  | _, [] => []
  | fuel + 1, b :: rest =>
    if b < 0x80 then Char.ofNat b :: utf8DecodeF fuel rest
    else if 0xC2 ≤ b && b ≤ 0xDF then
      match rest with
      | c1 :: rest1 =>
        if utf8Cont c1 then
          Char.ofNat ((b - 0xC0) * 64 + (c1 - 0x80)) :: utf8DecodeF fuel rest1
        else replacementChar :: utf8DecodeF fuel (c1 :: rest1)
      | [] => [replacementChar]
    else if 0xE0 ≤ b && b ≤ 0xEF then
      match rest with
      | c1 :: rest1 =>
        if (if b = 0xE0 then 0xA0 ≤ c1 && c1 ≤ 0xBF
            else if b = 0xED then 0x80 ≤ c1 && c1 ≤ 0x9F
            else utf8Cont c1) then
          match rest1 with
          | c2 :: rest2 =>
            if utf8Cont c2 then
              Char.ofNat ((b - 0xE0) * 4096 + (c1 - 0x80) * 64 + (c2 - 0x80))
                :: utf8DecodeF fuel rest2
            else replacementChar :: utf8DecodeF fuel (c2 :: rest2)
          | [] => [replacementChar]
        else replacementChar :: utf8DecodeF fuel (c1 :: rest1)
      | [] => [replacementChar]
    else if 0xF0 ≤ b && b ≤ 0xF4 then
      match rest with
      | c1 :: rest1 =>
        if (if b = 0xF0 then 0x90 ≤ c1 && c1 ≤ 0xBF
            else if b = 0xF4 then 0x80 ≤ c1 && c1 ≤ 0x8F
            else utf8Cont c1) then
          match rest1 with
          | c2 :: rest2 =>
            if utf8Cont c2 then
              match rest2 with
              | c3 :: rest3 =>
                if utf8Cont c3 then
                  Char.ofNat ((b - 0xF0) * 262144 + (c1 - 0x80) * 4096
                      + (c2 - 0x80) * 64 + (c3 - 0x80)) :: utf8DecodeF fuel rest3
                else replacementChar :: utf8DecodeF fuel (c3 :: rest3)
              | [] => [replacementChar]
            else replacementChar :: utf8DecodeF fuel (c2 :: rest2)
          | [] => [replacementChar]
        else replacementChar :: utf8DecodeF fuel (c1 :: rest1)
      | [] => [replacementChar]
    else replacementChar :: utf8DecodeF fuel rest

/-- UTF-8 decoding of a byte run, invalid sequences replaced, as `unquote`
with its replacement error handler decodes each run of percent escapes.
Each step consumes at least one byte, so the list length is enough fuel. -/
def utf8Decode (bs : List Nat) : Str := utf8DecodeF bs.length bs

/-- Reassembly pass of `unquote`: literal characters pass through, each
maximal run of bytes (accumulated in reverse in `run`) is UTF-8 decoded. -/
def flushAux : List (Sum Char Nat) → List Nat → Str
  | [], run => utf8Decode run.reverse
  | Sum.inl c :: rest, run => utf8Decode run.reverse ++ c :: flushAux rest []
  | Sum.inr b :: rest, run => flushAux rest (b :: run)

/-- Percent-decoding reassembly over the whole token stream. -/
def flushTokens (l : List (Sum Char Nat)) : Str :=
  flushAux l []

/-- Model of `urllib.parse.unquote` (UTF-8, replacement on error). -/
def pyUnquote (s : Str) : Str :=
  flushTokens (pctTokens s)

/-- Model of `app/main.py` `_decode_url_component`: normalize the
dot-escaped percent-encoding quirk, then percent-decode. -/
def decodeUrlComponent (encoded : Str) : Str :=
  pyUnquote (dotPatch encoded)

/-! Helper lemmas for the claim theorems. -/

theorem pyJoin_cons_ne_nil (sep x : Str) (xs : List Str) (hx : x ≠ []) :
    pyJoin sep (x :: xs) ≠ [] := by
  cases xs with
  | nil => simpa [pyJoin] using hx
  | cons y ys =>
    simp only [pyJoin]
    intro h
    rcases List.append_eq_nil.mp (List.append_eq_nil.mp h).1 with ⟨h1, _⟩
    exact hx h1

theorem analyze_ne_nil (repos : List RepoModel) (text : Str) :
    analyze repos text ≠ [] := by
  rw [analyze]
  by_cases h : repos.isEmpty
  · simp only [h, if_pos]
    decide
  · simp only [h, if_neg, Bool.false_eq_true, not_false_eq_true]
    exact pyJoin_cons_ne_nil _ _ _ (by decide)

/-! Claim theorems. -/

/-- C1: `TriageService.run` gathers tool evidence first and hands exactly the
gathered results to the LLM tier when that tier is enabled; whenever the LLM
tier is disabled, or its invocation returns `None` or the empty string, `run`
returns exactly `analyzer.analyze(request.combined_text())`, an expression
independent of the gathered tool results, so the evidence plays no role in
the fallback output. -/
theorem c1_run_fallback
    (gather : TriageRequest → List ToolResult) (llm : LLMModel)
    (repos : List RepoModel) (request : TriageRequest) :
    (llm.enabled = true →
      triageRun gather llm repos request =
        (match llm.invoke request (gather request) with
         | some s => if s ≠ [] then s else analyze repos (combinedText request)
         | none => analyze repos (combinedText request))) ∧
    (llm.enabled = false →
      triageRun gather llm repos request = analyze repos (combinedText request)) ∧
    (llm.invoke request (gather request) = none →
      triageRun gather llm repos request = analyze repos (combinedText request)) ∧
    (llm.invoke request (gather request) = some [] →
      triageRun gather llm repos request = analyze repos (combinedText request)) := by
  refine ⟨?_, ?_, ?_, ?_⟩ <;> intro h
  · rw [triageRun]
    simp only [h, if_pos]
    cases hinv : llm.invoke request (gather request) with
    | none => simp
    | some s =>
      by_cases hs : s = []
      · simp [hs]
      · simp [hs]
  · rw [triageRun]
    simp [h]
  · rw [triageRun]
    cases he : llm.enabled <;> simp [he, h]
  · rw [triageRun]
    cases he : llm.enabled <;> simp [he, h]

/-- C1 witness: with the LLM tier disabled the fallback equality holds at a
concrete request. -/
theorem c1_witness :
    triageRun (fun _ => []) (LLMModel.mk false (fun _ _ => none)) []
        (TriageRequest.mk [] none none [] []) =
      analyze [] (combinedText (TriageRequest.mk [] none none [] [])) :=
  (c1_run_fallback (fun _ => []) (LLMModel.mk false (fun _ _ => none)) []
    (TriageRequest.mk [] none none [] [])).2.1 rfl

/-- C2 counterexample: the claim states both extractors rank surviving
tokens by descending frequency, but on this text the fallback analyzer's
extractor omits the most frequent token `zulu`: it returns the first four
distinct surviving tokens in appearance order, not a frequency ranking. -/
theorem c2_counterexample :
    analyzerExtractKeywords ("alfa bravo carlo delta zulu zulu zulu".toList) ≠
      specRank 4
        (narrowSurvivors ("alfa bravo carlo delta zulu zulu zulu".toList)) := by
  decide

/-- C2 amended: the broad orchestration extractor returns its surviving
tokens ranked by descending frequency with ties broken by first-appearance
order, truncated to its top-12 limit; the narrow fallback-analyzer extractor
instead returns the first 4 distinct surviving tokens in order of first
appearance, with no frequency ranking. -/
theorem c2_keyword_extractors (text : Str) :
    triageExtractKeywords text = specRank 12 (broadSurvivors text) ∧
    analyzerExtractKeywords text = (distinctFirst (narrowSurvivors text)).take 4 :=
  ⟨triageExtract_eq_specRank text, analyzerExtract_eq_take_distinct text⟩

/-- C5: `TriageService.run` never returns an empty string, and with the LLM
tier disabled and no repositories configured it returns the literal
could-not-locate-repos sentence (in particular when no keywords are
extracted). -/
theorem c5_run_never_empty :
    (∀ (gather : TriageRequest → List ToolResult) (llm : LLMModel)
        (repos : List RepoModel) (request : TriageRequest),
      triageRun gather llm repos request ≠ []) ∧
    (∀ (gather : TriageRequest → List ToolResult)
        (invoke : TriageRequest → List ToolResult → Option Str)
        (request : TriageRequest),
      triageRun gather (LLMModel.mk false invoke) [] request = NO_REPOS_MSG) := by
  constructor
  · intro gather llm repos request
    rw [triageRun]
    cases he : llm.enabled
    · simpa [he] using analyze_ne_nil repos (combinedText request)
    · cases hinv : llm.invoke request (gather request) with
      | none => simpa [he, hinv] using analyze_ne_nil repos (combinedText request)
      | some s =>
        by_cases hs : s = []
        · simpa [he, hinv, hs] using analyze_ne_nil repos (combinedText request)
        · simp [he, hinv, hs]
  · intro gather invoke request
    rw [triageRun]
    simp [analyze]

/-- C6: for every outcome of the triage pipeline — including an exception
raised in any of gather, LLM tier or fallback, modelled by the `Except`
error of `triageRunExc` — the per-message handler sends exactly one reply;
an exception is caught and becomes the generic failure message embedding the
exception text, and the handler itself is total, so nothing propagates out
of it. -/
theorem c6_handler_always_replies :
    (∀ (gatherE : TriageRequest → Except Str (List ToolResult))
        (llmEnabled : Bool)
        (llmE : TriageRequest → List ToolResult → Except Str (Option Str))
        (analyzeE : Str → Except Str Str)
        (request : TriageRequest) (incident : IncidentRecord),
      (runTriageAndReply (triageRunExc gatherE llmEnabled llmE analyzeE request)
          incident request).sent.length = 1) ∧
    (∀ (e : Str) (incident : IncidentRecord) (request : TriageRequest),
      (runTriageAndReply (Except.error e) incident request).sent =
        [("Unable to run automated analysis: ".toList) ++ e]) ∧
    (∀ (o : Except Str Str) (incident : IncidentRecord) (request : TriageRequest),
      (runTriageAndReply o incident request).sent = [summaryOfOutcome o] ∧
      (runTriageAndReply o incident request).record =
        recordUpdate incident (summaryOfOutcome o) request) := by
  refine ⟨fun _ _ _ _ _ _ => rfl, fun _ _ _ => rfl, fun o _ _ => ⟨rfl, rfl⟩⟩

/-- C9: deep-link topic decoding is percent-decoding after the dot-escape
normalization pass, the normalization rewrites every literal dot followed by
two hex digits into the corresponding percent escape, and the encoded topic
segment "Q.2eA" decodes to the literal text "Q.A". -/
theorem c9_decode_url_component (s rest : Str) (h1 h2 : Char)
    (hh1 : isHexDigit h1 = true) (hh2 : isHexDigit h2 = true) :
    decodeUrlComponent s = pyUnquote (dotPatch s) ∧
    dotPatch ('.' :: h1 :: h2 :: rest) = '%' :: h1 :: h2 :: dotPatch rest ∧
    decodeUrlComponent ("Q.2eA".toList) = ("Q.A".toList) := by
  refine ⟨rfl, ?_, by decide⟩
  simp [dotPatch, hh1, hh2]

/-- C9 witness: the dot-escape rewrite fires on the concrete escape `.2e`
and the concrete topic segment decodes as claimed. -/
theorem c9_witness :
    dotPatch ('.' :: '2' :: 'e' :: []) = '%' :: '2' :: 'e' :: dotPatch [] ∧
    decodeUrlComponent ("Q.2eA".toList) = ("Q.A".toList) :=
  ⟨(c9_decode_url_component [] [] '2' 'e' (by decide) (by decide)).2.1,
   (c9_decode_url_component [] [] '2' 'e' (by decide) (by decide)).2.2⟩

/-- C10: the incident-key derivation is not injective: for the same channel
the topics `None`, the empty string and "general" all derive the same key,
a channel `None` collides with a channel literally named "dm", and
`get_or_create` therefore returns the same record for such distinct
threads (here: topic "general" versus topic `None` in channel "c"). -/
theorem c10_key_not_injective :
    (∀ ch : Option Str,
      incidentKey ch none = incidentKey ch (some ("general".toList)) ∧
      incidentKey ch (some []) = incidentKey ch (some ("general".toList))) ∧
    (∀ t : Option Str,
      incidentKey none t = incidentKey (some ("dm".toList)) t) ∧
    ((getOrCreate (getOrCreate []
        (TriageRequest.mk [] (some ("c".toList)) (some ("general".toList)) [] [])).2
        (TriageRequest.mk [] (some ("c".toList)) none [] [])).1 =
      (getOrCreate []
        (TriageRequest.mk [] (some ("c".toList)) (some ("general".toList)) [] [])).1) := by
  refine ⟨?_, ?_, by decide⟩
  · intro ch
    constructor <;> simp [incidentKey, pyOrStr]
  · intro t
    simp [incidentKey, pyOrStr]

theorem foldl_threadStep (plain : Str → Str) (l : List ZulipMessage) :
    ∀ acc, l.foldl (threadStep plain) acc = acc ++ l.filterMap (threadLineOf plain) := by
  induction l with
  | nil => simp
  | cons m ms ih =>
    intro acc
    rw [List.foldl_cons, ih]
    by_cases hm : plain m.content = []
    · simp [threadStep, threadLineOf, hm]
    · simp [threadStep, threadLineOf, hm]

/-- Concrete fetched thread for the C3 counterexample: eleven messages, all
non-empty except the sixth, whose content flattens to the empty string. -/
def c3msgs : List ZulipMessage :=
  [ZulipMessage.mk (some ("u1".toList)) (some ("e".toList)) ("m1".toList),
   ZulipMessage.mk (some ("u2".toList)) (some ("e".toList)) ("m2".toList),
   ZulipMessage.mk (some ("u3".toList)) (some ("e".toList)) ("m3".toList),
   ZulipMessage.mk (some ("u4".toList)) (some ("e".toList)) ("m4".toList),
   ZulipMessage.mk (some ("u5".toList)) (some ("e".toList)) ("m5".toList),
   ZulipMessage.mk (some ("u6".toList)) (some ("e".toList)) [],
   ZulipMessage.mk (some ("u7".toList)) (some ("e".toList)) ("m7".toList),
   ZulipMessage.mk (some ("u8".toList)) (some ("e".toList)) ("m8".toList),
   ZulipMessage.mk (some ("u9".toList)) (some ("e".toList)) ("m9".toList),
   ZulipMessage.mk (some ("u10".toList)) (some ("e".toList)) ("m10".toList),
   ZulipMessage.mk (some ("u11".toList)) (some ("e".toList)) ("m11".toList)]

/-- C3 counterexample: on a thread of eleven messages whose sixth flattens to
the empty string, the code's context — the non-empty lines among the last
10 fetched messages — has nine lines and omits the first message, while the
claim's "last 10 non-empty flattened messages" has ten lines and includes
it.  Flattening is instantiated with the identity, which agrees with
`_plain_text` on these tag-free single-token contents. -/
theorem c3_counterexample :
    buildThreadLines id c3msgs ≠ specThreadLines id c3msgs := by
  decide

/-- C3 corrected: the context lines are exactly the non-empty flattened
messages among the last 10 fetched messages (not the last 10 non-empty
messages of the whole thread), each formatted `<author>: <text>` with
chronological order preserved; an unsuccessful or failed fetch yields the
empty message list, hence the empty context, with no error raised (the
model is total). -/
theorem c3_thread_context (plain : Str → Str) (msgs : List ZulipMessage)
    (resp : GetMessagesResult) (hresp : resp.result ≠ ("success".toList)) :
    buildThreadLines plain msgs = (lastN 10 msgs).filterMap (threadLineOf plain) ∧
    fetchThreadMessages resp = [] ∧
    buildThreadLines plain [] = [] := by
  refine ⟨?_, ?_, rfl⟩
  · rw [buildThreadLines, foldl_threadStep]
    simp
  · rw [fetchThreadMessages, if_pos hresp]

/-- C3 witness: the corrected statement applied to the empty thread and to a
concrete failed transport response. -/
theorem c3_witness :
    buildThreadLines id [] =
      (lastN 10 ([] : List ZulipMessage)).filterMap (threadLineOf id) ∧
    fetchThreadMessages (GetMessagesResult.mk ("error".toList) []) = [] :=
  ⟨(c3_thread_context id [] (GetMessagesResult.mk ("error".toList) [])
      (by decide)).1,
   (c3_thread_context id [] (GetMessagesResult.mk ("error".toList) [])
      (by decide)).2.1⟩

theorem storeLookup_append_self (st : IncidentStoreState) (k : Str)
    (rec : IncidentRecord) (h : storeLookup st k = none) :
    storeLookup (st ++ [(k, rec)]) k = some rec := by
  induction st with
  | nil => simp [storeLookup]
  | cons e rest ih =>
    by_cases he : e.1 = k
    · simp [storeLookup, he] at h
    · simp only [storeLookup, List.cons_append, if_neg he] at h ⊢
      exact ih h

theorem getOrCreate_lookup (st : IncidentStoreState) (r : TriageRequest) :
    storeLookup (getOrCreate st r).2 (incidentKey r.stream r.topic) =
      some (getOrCreate st r).1 := by
  rw [getOrCreate]
  cases hl : storeLookup st (incidentKey r.stream r.topic) with
  | some rec => simpa using hl
  | none => simpa using storeLookup_append_self st _ _ hl

theorem incidentKey_ne_of_norm_ne (s : Option Str) (t t' : Option Str)
    (h : pyOrStr t ("general".toList) ≠ pyOrStr t' ("general".toList)) :
    incidentKey s t ≠ incidentKey s t' := by
  intro he
  apply h
  rw [incidentKey, incidentKey, List.append_assoc, List.append_assoc] at he
  have h2 := List.append_cancel_left he
  simpa using h2

/-- C7 counterexample: two requests in the same channel with different
topics — "general" versus `None` — are mapped to the same key, and the
second `get_or_create` call returns the very record created by the first,
with the store unchanged. -/
theorem c7_counterexample :
    (TriageRequest.mk [] (some ("c".toList)) (some ("general".toList)) [] []).topic ≠
      (TriageRequest.mk [] (some ("c".toList)) none [] []).topic ∧
    (getOrCreate (getOrCreate []
        (TriageRequest.mk [] (some ("c".toList)) (some ("general".toList)) [] [])).2
        (TriageRequest.mk [] (some ("c".toList)) none [] [])).1 =
      (getOrCreate []
        (TriageRequest.mk [] (some ("c".toList)) (some ("general".toList)) [] [])).1 ∧
    (getOrCreate (getOrCreate []
        (TriageRequest.mk [] (some ("c".toList)) (some ("general".toList)) [] [])).2
        (TriageRequest.mk [] (some ("c".toList)) none [] [])).2 =
      (getOrCreate []
        (TriageRequest.mk [] (some ("c".toList)) (some ("general".toList)) [] [])).2 := by
  refine ⟨by decide, by decide, by decide⟩

/-- C7 corrected: `get_or_create` returns the same record — and leaves the
store unchanged — for two requests sharing the same (channel, topic); for
two requests with the same channel the records are distinct whenever the
truthiness-normalized topics (`None` and the empty string normalize to
"general") differ, but not for every pair of distinct topics, since e.g.
topic `None` and topic "general" collide; the key derivation is total over
all optional inputs and always yields a non-empty key. -/
theorem c7_incident_store :
    (∀ (st : IncidentStoreState) (r1 r2 : TriageRequest),
      r1.stream = r2.stream → r1.topic = r2.topic →
      (getOrCreate (getOrCreate st r1).2 r2).1 = (getOrCreate st r1).1 ∧
      (getOrCreate (getOrCreate st r1).2 r2).2 = (getOrCreate st r1).2) ∧
    (∀ r1 r2 : TriageRequest,
      r1.stream = r2.stream →
      pyOrStr r1.topic ("general".toList) ≠ pyOrStr r2.topic ("general".toList) →
      incidentKey r1.stream r1.topic ≠ incidentKey r2.stream r2.topic ∧
      (getOrCreate (getOrCreate [] r1).2 r2).1 ≠ (getOrCreate [] r1).1) ∧
    (∀ s t : Option Str, incidentKey s t ≠ []) := by
  refine ⟨?_, ?_, ?_⟩
  · intro st r1 r2 hs ht
    have hk : incidentKey r2.stream r2.topic = incidentKey r1.stream r1.topic := by
      rw [hs, ht]
    constructor
    · conv_lhs => rw [getOrCreate, hk, getOrCreate_lookup]
    · conv_lhs => rw [getOrCreate, hk, getOrCreate_lookup]
  · intro r1 r2 hs hnorm
    have hkey : incidentKey r1.stream r1.topic ≠ incidentKey r2.stream r2.topic := by
      rw [hs]
      exact incidentKey_ne_of_norm_ne r2.stream r1.topic r2.topic hnorm
    refine ⟨hkey, ?_⟩
    have htopic : r1.topic ≠ r2.topic := by
      intro he
      exact hnorm (by rw [he])
    have h1 : getOrCreate [] r1 =
        (IncidentRecord.mk r1.stream r1.topic none none [],
         [(incidentKey r1.stream r1.topic,
           IncidentRecord.mk r1.stream r1.topic none none [])]) := rfl
    have hlook : storeLookup
        [(incidentKey r1.stream r1.topic,
          IncidentRecord.mk r1.stream r1.topic none none [])]
        (incidentKey r2.stream r2.topic) = none := by
      simp [storeLookup, hkey]
    rw [h1]
    rw [getOrCreate]
    simp only [hlook]
    simp [IncidentRecord.mk.injEq]
    intro _ he
    exact htopic he.symm
  · intro s t h
    have hlen := congrArg List.length h
    simp [incidentKey] at hlen

/-- C7 witness: the corrected statement applied to concrete requests — the
same (channel, topic) twice yields the same record, and topics "a" and "b"
(whose normalized forms differ) yield different keys and records. -/
theorem c7_witness :
    ((getOrCreate (getOrCreate []
        (TriageRequest.mk [] (some ("c".toList)) (some ("t".toList)) [] [])).2
        (TriageRequest.mk (("x".toList)) (some ("c".toList)) (some ("t".toList)) [] [])).1 =
      (getOrCreate []
        (TriageRequest.mk [] (some ("c".toList)) (some ("t".toList)) [] [])).1) ∧
    ((getOrCreate (getOrCreate []
        (TriageRequest.mk [] (some ("c".toList)) (some ("a".toList)) [] [])).2
        (TriageRequest.mk [] (some ("c".toList)) (some ("b".toList)) [] [])).1 ≠
      (getOrCreate []
        (TriageRequest.mk [] (some ("c".toList)) (some ("a".toList)) [] [])).1) ∧
    incidentKey none none ≠ [] :=
  ⟨(c7_incident_store.1 []
      (TriageRequest.mk [] (some ("c".toList)) (some ("t".toList)) [] [])
      (TriageRequest.mk (("x".toList)) (some ("c".toList)) (some ("t".toList)) [] [])
      rfl rfl).1,
   (c7_incident_store.2.1
      (TriageRequest.mk [] (some ("c".toList)) (some ("a".toList)) [] [])
      (TriageRequest.mk [] (some ("c".toList)) (some ("b".toList)) [] [])
      rfl (by decide)).2,
   c7_incident_store.2.2 none none⟩

theorem cacheGet_cachePut (c : SearchCache) (r k : Str) (ms : List RepoMatch) :
    cacheGet (cachePut c r k ms) r k = some ms := by
  induction c with
  | nil => simp [cachePut, cacheGet]
  | cons e rest ih =>
    by_cases he : e.1 = (r, k)
    · simp [cachePut, he, cacheGet]
    · simp [cachePut, he, cacheGet, ih]

theorem searchCode_miss (reg : ToolRegistryModel) (cache : SearchCache)
    (rn q : Str) (limit : Nat) (dirs : Option (List Str))
    (hrepo : rn ∈ reg.repoNames) (hmiss : cacheGet cache rn q = none)
    (hsg : ∀ c, reg.sg = some c → ∀ r q2 d l, (c.search r q2 d l).length ≤ l)
    (hloc : ∀ r q2 l, (reg.localSearch r q2 l).length ≤ l) :
    ∃ M n, searchCode reg cache rn q limit dirs = (M, cachePut cache rn q M, n) ∧
      M.length ≤ limit := by
  rw [searchCode, if_neg (not_not_intro hrepo)]
  simp only [hmiss]
  refine ⟨_, _, rfl, ?_⟩
  rcases hsgm : reg.sg with _ | client
  · simp only [hsgm]
    simpa using hloc rn q limit
  · by_cases hen : client.enabled = true
    · by_cases hnil : client.search rn q dirs limit = []
      · simp only [hsgm, hen, if_pos, hnil, List.map_nil]
        simpa using hloc rn q limit
      · simp only [hsgm, hen, if_pos]
        rw [if_neg (by simpa [List.map_eq_nil_iff] using hnil)]
        simpa using hsg client hsgm rn q dirs limit
    · simp only [hsgm, Bool.not_eq_true] at hen
      simp only [hsgm, hen]
      simpa using hloc rn q limit

/-- C4: `search_code` memoizes per (repo, keyword).  Under the collaborator
contract that each search backend returns at most `limit` matches for a
`limit`-bounded query (the spec treats both backends as bounded
collaborators), a second call with the same repo, keyword and limit returns
the identical matches by value and performs zero backend invocations —
whatever directory filter either call passes — and in general a cache hit
returns the stored match list truncated to the requested limit, with zero
backend invocations. -/
theorem c4_search_cache (reg : ToolRegistryModel) (cache : SearchCache)
    (repo_name query : Str) (limit : Nat) (dirs dirs2 : Option (List Str))
    (hsg : ∀ c, reg.sg = some c → ∀ r q2 d l, (c.search r q2 d l).length ≤ l)
    (hloc : ∀ r q2 l, (reg.localSearch r q2 l).length ≤ l) :
    ((searchCode reg (searchCode reg cache repo_name query limit dirs).2.1
        repo_name query limit dirs2).1 =
      (searchCode reg cache repo_name query limit dirs).1 ∧
     (searchCode reg (searchCode reg cache repo_name query limit dirs).2.1
        repo_name query limit dirs2).2.2 = 0) ∧
    (∀ stored, cacheGet cache repo_name query = some stored →
      repo_name ∈ reg.repoNames →
      (searchCode reg cache repo_name query limit dirs).1 = stored.take limit ∧
      (searchCode reg cache repo_name query limit dirs).2.2 = 0) := by
  constructor
  · by_cases hrepo : repo_name ∈ reg.repoNames
    · cases hget : cacheGet cache repo_name query with
      | some stored =>
        have h1 : searchCode reg cache repo_name query limit dirs =
            (stored.take limit, cache, 0) := by
          rw [searchCode, if_neg (not_not_intro hrepo)]
          simp [hget]
        rw [h1]
        rw [searchCode, if_neg (not_not_intro hrepo)]
        simp [hget, List.take_take]
      | none =>
        obtain ⟨M, n, heq, hlen⟩ :=
          searchCode_miss reg cache repo_name query limit dirs hrepo hget hsg hloc
        rw [heq]
        rw [searchCode, if_neg (not_not_intro hrepo)]
        simp [cacheGet_cachePut cache repo_name query M,
          List.take_of_length_le hlen]
    · rw [searchCode, if_pos (by simpa using hrepo)]
      rw [searchCode, if_pos (by simpa using hrepo)]
      exact ⟨rfl, rfl⟩
  · intro stored hs hmem
    rw [searchCode, if_neg (not_not_intro hmem)]
    simp [hs]

/-- C4 witness: the memoization property at a concrete registry whose
backends satisfy the bounded-collaborator contract (they return no
matches), a concrete key and a prepopulated cache entry. -/
theorem c4_witness :
    ((searchCode
        (ToolRegistryModel.mk [("r".toList)] (fun _ _ _ => []) none)
        (searchCode (ToolRegistryModel.mk [("r".toList)] (fun _ _ _ => []) none)
          [((("r".toList), ("k".toList)), [RepoMatch.mk ("p".toList) 1 ("v".toList)])]
          ("r".toList) ("k".toList) 2 none).2.1
        ("r".toList) ("k".toList) 2 none).1 =
      (searchCode (ToolRegistryModel.mk [("r".toList)] (fun _ _ _ => []) none)
        [((("r".toList), ("k".toList)), [RepoMatch.mk ("p".toList) 1 ("v".toList)])]
        ("r".toList) ("k".toList) 2 none).1) ∧
    ((searchCode (ToolRegistryModel.mk [("r".toList)] (fun _ _ _ => []) none)
        [((("r".toList), ("k".toList)), [RepoMatch.mk ("p".toList) 1 ("v".toList)])]
        ("r".toList) ("k".toList) 2 none).1 =
      [RepoMatch.mk ("p".toList) 1 ("v".toList)].take 2) :=
  ⟨(c4_search_cache (ToolRegistryModel.mk [("r".toList)] (fun _ _ _ => []) none)
      [((("r".toList), ("k".toList)), [RepoMatch.mk ("p".toList) 1 ("v".toList)])]
      ("r".toList) ("k".toList) 2 none none
      (fun c hc => by cases hc) (fun _ _ _ => by simp)).1.1,
   ((c4_search_cache (ToolRegistryModel.mk [("r".toList)] (fun _ _ _ => []) none)
      [((("r".toList), ("k".toList)), [RepoMatch.mk ("p".toList) 1 ("v".toList)])]
      ("r".toList) ("k".toList) 2 none none
      (fun c hc => by cases hc) (fun _ _ _ => by simp)).2
      [RepoMatch.mk ("p".toList) 1 ("v".toList)] (by decide) (by decide)).1⟩

theorem leastBelow_none_spec (p : Nat → Bool) :
    ∀ n, leastBelow p n = none → ∀ j, j < n → p j = false := by
  intro n
  induction n with
  | zero => intro _ j hj; omega
  | succ m ih =>
    intro h j hj
    simp only [leastBelow] at h
    cases hl : leastBelow p m with
    | some k => rw [hl] at h; cases h
    | none =>
      rw [hl] at h
      by_cases hp : p m = true
      · rw [if_pos hp] at h; cases h
      · rcases Nat.lt_succ_iff_lt_or_eq.mp hj with hj2 | hj2
        · exact ih hl j hj2
        · subst hj2; simpa using hp

theorem leastBelow_some_spec (p : Nat → Bool) :
    ∀ n i, leastBelow p n = some i →
      p i = true ∧ i < n ∧ ∀ j, j < i → p j = false := by
  intro n
  induction n with
  | zero => intro i h; simp [leastBelow] at h
  | succ m ih =>
    intro i h
    simp only [leastBelow] at h
    cases hl : leastBelow p m with
    | some k =>
      rw [hl] at h
      cases h
      obtain ⟨h1, h2, h3⟩ := ih i hl
      exact ⟨h1, Nat.lt_succ_of_lt h2, h3⟩
    | none =>
      rw [hl] at h
      by_cases hp : p m = true
      · rw [if_pos hp] at h
        cases h
        exact ⟨hp, Nat.lt_succ_self m, leastBelow_none_spec p m hl⟩
      · rw [if_neg hp] at h; cases h

theorem leastBelow_eq_some (p : Nat → Bool) (n i : Nat) (hi : i < n)
    (hp : p i = true) (hleast : ∀ j, j < i → p j = false) :
    leastBelow p n = some i := by
  cases hl : leastBelow p n with
  | none => exact absurd (leastBelow_none_spec p n hl i hi) (by simp [hp])
  | some k =>
    obtain ⟨hpk, hkn, hkleast⟩ := leastBelow_some_spec p n k hl
    have hki : k = i := by
      rcases Nat.lt_trichotomy k i with hlt | heq | hgt
      · exact absurd hpk (by simp [hleast k hlt])
      · exact heq
      · exact absurd hp (by simp [hkleast i hgt])
    rw [hki]

theorem productTokenAt_lt_length (l : Str) (i : Nat)
    (h : productTokenAt l i = true) : i < l.length := by
  simp only [productTokenAt, Bool.and_eq_true] at h
  have hpre : (("/product".toList)).isPrefixOf (l.drop i) = true := h.1.1
  have hlen : 8 ≤ (l.drop i).length :=
    (List.isPrefixOf_iff_prefix.mp hpre).length_le
  simp only [List.length_drop] at hlen
  omega

theorem aliasScanOne_none (text lowered command : Str) (als : List Str)
    (h : ∀ al ∈ als, lowered ≠ al ∧ (al ++ [' ']).isPrefixOf lowered = false) :
    aliasScanOne text lowered command als = none := by
  induction als with
  | nil => rfl
  | cons al rest ih =>
    obtain ⟨h1, h2⟩ := h al (List.mem_cons_self al rest)
    simp only [aliasScanOne, if_neg h1]
    rw [if_neg (by simp [h2])]
    exact ih (fun a ha => h a (List.mem_cons_of_mem al ha))

theorem aliasScan_none (text lowered : Str) (table : List (Str × List Str))
    (h : ∀ e ∈ table, ∀ al ∈ e.2,
      lowered ≠ al ∧ (al ++ [' ']).isPrefixOf lowered = false) :
    aliasScan text lowered table = (none, []) := by
  induction table with
  | nil => rfl
  | cons e rest ih =>
    obtain ⟨cmd, als⟩ := e
    simp only [aliasScan]
    rw [aliasScanOne_none text lowered cmd als
      (fun al ha => h (cmd, als) (List.mem_cons_self _ _) al ha)]
    exact ih (fun e2 he al ha => h e2 (List.mem_cons_of_mem _ he) al ha)

theorem extractCore_alias_status (t : Str) :
    extractCore t ("status".toList) = (some ("status".toList), []) := rfl

theorem extractCore_alias_triage_status (t : Str) :
    extractCore t ("triage status".toList) = (some ("status".toList), []) := rfl

theorem extractCore_alias_status_q (t : Str) :
    extractCore t ("status?".toList) = (some ("status".toList), []) := rfl

theorem extractCore_alias_show_status (t : Str) :
    extractCore t ("show status".toList) = (some ("status".toList), []) := rfl

theorem extractCore_alias_rerun (t : Str) :
    extractCore t ("rerun".toList) = (some ("rerun".toList), []) := rfl

theorem extractCore_alias_rerun_analysis (t : Str) :
    extractCore t ("rerun analysis".toList) =
      (some ("rerun".toList), pyStrip (t.drop 5)) := rfl

theorem extractCore_alias_rerun_triage (t : Str) :
    extractCore t ("rerun triage".toList) =
      (some ("rerun".toList), pyStrip (t.drop 5)) := rfl

theorem extractCore_alias_next_steps (t : Str) :
    extractCore t ("next steps".toList) = (some ("rerun".toList), []) := rfl

theorem extractCore_alias_next_dash_steps (t : Str) :
    extractCore t ("next-steps".toList) = (some ("rerun".toList), []) := rfl

theorem extractCore_alias_slash_product (t : Str) :
    extractCore t ("/product".toList) =
      (some ("product".toList), pyStrip (t.drop 8)) := rfl

theorem extractCore_alias_product (t : Str) :
    extractCore t ("product".toList) = (some ("product".toList), []) := rfl

/-- C8 counterexample: the text "rerun analysis" is, after trimming and
lowercasing, exactly a registered alias of the `rerun` command, yet
extraction returns the non-empty remainder "analysis", because the alias
"rerun" of the same command prefix-matches first. -/
theorem c8_counterexample :
    (pyLower (pyStrip ("rerun analysis".toList)) ∈
      (COMMAND_ALIASES.map Prod.snd).flatten) ∧
    extractCommand ("rerun analysis".toList) ≠ (some ("rerun".toList), []) ∧
    extractCommand ("rerun analysis".toList) =
      (some ("rerun".toList), ("analysis".toList)) := by
  refine ⟨by decide, by decide, by decide⟩

/-- C8 corrected: (a) for every text exactly equal, after trimming and
lowercasing, to a registered command alias, extraction returns that alias's
command, with an empty remainder in every case except the aliases
"rerun analysis" and "rerun triage", where the shorter alias "rerun" of the
same command matches first and the trailing text (trimmed, original case)
becomes the remainder, and except "/product", whose remainder is the trimmed
text after the token (empty here); (b) for every text containing
"/product" preceded by start-of-text or whitespace and followed by a word
boundary, extraction returns command `product` with remainder the trimmed
text after the first such token — a "/product" glued to a preceding word
does not count; (c) when no such product token occurs and no alias matches
exactly or as an alias-plus-space prefix, no command is returned. -/
theorem c8_command_extraction :
    (∀ text : Str,
      (pyLower (pyStrip text) = ("status".toList) →
        extractCommand text = (some ("status".toList), [])) ∧
      (pyLower (pyStrip text) = ("triage status".toList) →
        extractCommand text = (some ("status".toList), [])) ∧
      (pyLower (pyStrip text) = ("status?".toList) →
        extractCommand text = (some ("status".toList), [])) ∧
      (pyLower (pyStrip text) = ("show status".toList) →
        extractCommand text = (some ("status".toList), [])) ∧
      (pyLower (pyStrip text) = ("rerun".toList) →
        extractCommand text = (some ("rerun".toList), [])) ∧
      (pyLower (pyStrip text) = ("rerun analysis".toList) →
        extractCommand text =
          (some ("rerun".toList), pyStrip ((pyStrip text).drop 5))) ∧
      (pyLower (pyStrip text) = ("rerun triage".toList) →
        extractCommand text =
          (some ("rerun".toList), pyStrip ((pyStrip text).drop 5))) ∧
      (pyLower (pyStrip text) = ("next steps".toList) →
        extractCommand text = (some ("rerun".toList), [])) ∧
      (pyLower (pyStrip text) = ("next-steps".toList) →
        extractCommand text = (some ("rerun".toList), [])) ∧
      (pyLower (pyStrip text) = ("/product".toList) →
        extractCommand text = (some ("product".toList), [])) ∧
      (pyLower (pyStrip text) = ("product".toList) →
        extractCommand text = (some ("product".toList), []))) ∧
    (∀ (text : Str) (i : Nat),
      productTokenAt (pyLower (pyStrip text)) i = true →
      (∀ j, j < i → productTokenAt (pyLower (pyStrip text)) j = false) →
      extractCommand text =
        (some ("product".toList), pyStrip ((pyStrip text).drop (i + 8)))) ∧
    (∀ text : Str,
      (∀ j, j < (pyLower (pyStrip text)).length →
        productTokenAt (pyLower (pyStrip text)) j = false) →
      (∀ al ∈ (COMMAND_ALIASES.map Prod.snd).flatten,
        pyLower (pyStrip text) ≠ al ∧
        (al ++ [' ']).isPrefixOf (pyLower (pyStrip text)) = false) →
      extractCommand text = (none, [])) := by
  refine ⟨?_, ?_, ?_⟩
  · intro text
    refine ⟨?_, ?_, ?_, ?_, ?_, ?_, ?_, ?_, ?_, ?_, ?_⟩ <;> intro h
    · show extractCore (pyStrip text) (pyLower (pyStrip text)) = _
      rw [h]; exact extractCore_alias_status (pyStrip text)
    · show extractCore (pyStrip text) (pyLower (pyStrip text)) = _
      rw [h]; exact extractCore_alias_triage_status (pyStrip text)
    · show extractCore (pyStrip text) (pyLower (pyStrip text)) = _
      rw [h]; exact extractCore_alias_status_q (pyStrip text)
    · show extractCore (pyStrip text) (pyLower (pyStrip text)) = _
      rw [h]; exact extractCore_alias_show_status (pyStrip text)
    · show extractCore (pyStrip text) (pyLower (pyStrip text)) = _
      rw [h]; exact extractCore_alias_rerun (pyStrip text)
    · show extractCore (pyStrip text) (pyLower (pyStrip text)) = _
      rw [h]; exact extractCore_alias_rerun_analysis (pyStrip text)
    · show extractCore (pyStrip text) (pyLower (pyStrip text)) = _
      rw [h]; exact extractCore_alias_rerun_triage (pyStrip text)
    · show extractCore (pyStrip text) (pyLower (pyStrip text)) = _
      rw [h]; exact extractCore_alias_next_steps (pyStrip text)
    · show extractCore (pyStrip text) (pyLower (pyStrip text)) = _
      rw [h]; exact extractCore_alias_next_dash_steps (pyStrip text)
    · show extractCore (pyStrip text) (pyLower (pyStrip text)) = _
      rw [h, extractCore_alias_slash_product (pyStrip text)]
      have hlen : (pyStrip text).length = 8 := by
        have h2 := congrArg List.length h
        simpa [pyLower] using h2
      rw [List.drop_eq_nil_of_le (by omega)]
      rfl
    · show extractCore (pyStrip text) (pyLower (pyStrip text)) = _
      rw [h]; exact extractCore_alias_product (pyStrip text)
  · intro text i hp hleast
    have hlt := productTokenAt_lt_length _ i hp
    have hidx : findProductIdx (pyLower (pyStrip text)) = some i :=
      leastBelow_eq_some _ _ i hlt hp hleast
    show extractCore (pyStrip text) (pyLower (pyStrip text)) = _
    rw [extractCore, hidx]
  · intro text hnp hal
    have hidx : findProductIdx (pyLower (pyStrip text)) = none := by
      cases hfi : findProductIdx (pyLower (pyStrip text)) with
      | none => rfl
      | some i =>
        obtain ⟨hpi, hin, _⟩ := leastBelow_some_spec _ _ i hfi
        exact absurd hpi (by simp [hnp i hin])
    show extractCore (pyStrip text) (pyLower (pyStrip text)) = (none, [])
    rw [extractCore, hidx]
    exact aliasScan_none _ _ _
      (fun e he al ha =>
        hal al (List.mem_flatten.mpr ⟨e.2, List.mem_map_of_mem Prod.snd he, ha⟩))

/-- C8 witness: the corrected statement applied to the exact alias "status",
to a text containing a whitespace-anchored "/product" token, and to a text
matching nothing. -/
theorem c8_witness :
    extractCommand ("status".toList) = (some ("status".toList), []) ∧
    extractCommand ("see /product db down".toList) =
      (some ("product".toList), ("db down".toList)) ∧
    extractCommand ("zzz".toList) = (none, []) :=
  ⟨((c8_command_extraction.1 ("status".toList)).1 (by decide)),
   ((c8_command_extraction.2.1 ("see /product db down".toList) 4
      (by decide) (by decide)).trans (by decide)),
   (c8_command_extraction.2.2 ("zzz".toList) (by decide) (by decide))⟩

end TriageBot
